import Mathlib

/-!
# File service: storage contract of `index.js`

A shallow embedding of the Express/multer file service in `src/index.js`:
the multer disk-storage callbacks (`destination`, `filename`), the upload
handler, the two retrieval handlers, the two listing handlers and the
deletion handler, over an explicit model of the file system.

Modelling conventions.

* The file system holds the two storage directories `uploads` and
  `public/images` (a directory that does not exist yet is `none`; an existing
  directory is a list of regular files, name and content), the absolute path
  of the directory of `index.js` (the value of `__dirname`, a list of path
  components), and whatever else exists, keyed by absolute path.  The
  directory `public` exists exactly when `public/images` does, and the
  ancestors of `__dirname` exist.
* The relative directory names used by multer and the `__dirname`-anchored
  paths used by the handlers denote the same directories (the process is
  started from the directory of `index.js`).
* Paths follow the POSIX rules of `path.join`: the route parameter is split at
  `/`, empty and `.` segments are dropped, `..` removes the segment before it,
  and a trailing `/` is kept.  For a plain name (one segment, not `.` or `..`)
  the joined path is the entry of that name in the directory; other
  parameters may resolve to the other directory, to a directory, or elsewhere.
* `Date.now()` is a natural number of milliseconds; JavaScript renders such an
  integer in plain decimal when it is concatenated with a string.
* Handlers are state-passing functions: they take the file system (and the
  request data) and return the new file system together with the response.
-/

namespace FileService

/-- Raw file content. -/
abbrev Bytes := List UInt8

/-- Plain names: one path component, that is a non-empty string without `/`
other than `.` and `..`. -/
def isPlain (s : String) : Bool :=
  decide (s ≠ "" ∧ s ≠ "." ∧ s ≠ ".." ∧ '/' ∉ s.data)

/-- Names of directory entries. -/
abbrev Name := { s : String // isPlain s = true }

/-- An existing storage directory: its regular files, name and content. -/
abbrev Dir := List (Name × Bytes)

/-- Content of the entry named `f`, if there is one. -/
def Dir.lookup : Dir → String → Option Bytes
  | [], _ => none
  | (g, b) :: rest, f => if g.val = f then some b else Dir.lookup rest f

/-- Removal of the entry named `f`. -/
def Dir.remove (d : Dir) (f : String) : Dir :=
  d.filter (fun e => decide (e.1.val ≠ f))

/-- Creation or truncating overwrite of the entry named `n`. -/
def Dir.write (d : Dir) (n : Name) (b : Bytes) : Dir :=
  (n, b) :: d.remove n.val

/-- What exists at a path outside the storage directories. -/
inductive Node where
  | file (content : Bytes)
  | dir
deriving DecidableEq, Repr

/-- The file system: the two storage directories (`none` is a directory that
does not exist), the absolute path of the directory of `index.js`, and the
other files and directories by absolute path. -/
structure FS where
  uploads : Option Dir
  images : Option Dir
  dirname : List String
  other : List (List String × Node)
deriving DecidableEq

/-- The file system before anything was stored. -/
def FS.empty (dirname : List String) (other : List (List String × Node)) : FS :=
  { uploads := none, images := none, dirname := dirname, other := other }

/-- Directory found at a relative path, for the two paths the program uses. -/
def FS.dir (fs : FS) (path : String) : Option Dir :=
  if path = "uploads" then fs.uploads
  else if path = "public/images" then fs.images
  else none

/-- Replacement of the directory at a relative path. -/
def FS.setDir (fs : FS) (path : String) (d : Option Dir) : FS :=
  if path = "uploads" then { fs with uploads := d }
  else if path = "public/images" then { fs with images := d }
  else fs

/-- Directory content as seen by a lookup: a missing directory has no entries. -/
def entries (d : Option Dir) : Dir := d.getD []

/-- Content of the regular file named `f` in the storage directory `path`. -/
def fileIn (fs : FS) (path f : String) : Option Bytes :=
  match fs.dir path with
  | some d => d.lookup f
  | none => none

/-- Presence of a regular file named `f` in the storage directory `path`. -/
def presentIn (fs : FS) (path f : String) : Bool :=
  (fileIn fs path f).isSome

/-- The call `fs.existsSync(dir)` for one of the two relative directory paths. -/
def dirExistsSync (fs : FS) (path : String) : Bool :=
  (fs.dir path).isSome

/-- The call `fs.mkdirSync(dir, { recursive: true })`. -/
def mkdirSync (fs : FS) (path : String) : FS :=
  match fs.dir path with
  | some _ => fs
  | none => fs.setDir path (some [])

/-- The call `fs.readdirSync(dir)` on an existing directory. -/
def readdirSync (fs : FS) (path : String) : List String :=
  match fs.dir path with
  | some d => d.map (fun e => e.1.val)
  | none => []

/-- Segments of a character list between the occurrences of `/`. -/
def splitSlash : List Char → List (List Char)
  | [] => [[]]
  | c :: cs =>
    if c = '/' then [] :: splitSlash cs
    else
      match splitSlash cs with
      | [] => [[c]]
      | seg :: rest => (c :: seg) :: rest

/-- Segments of a path string. -/
def segments (s : String) : List String :=
  (splitSlash s.data).map String.mk

/-- One step of path normalisation on the components collected so far. -/
def normStep (stack : List String) (seg : String) : List String :=
  if seg = "" ∨ seg = "." then stack
  else if seg = ".." then stack.dropLast
  else stack ++ [seg]

/-- An absolute normalised path: its components, and whether it ends in `/`. -/
structure Path where
  segs : List String
  trailing : Bool
deriving DecidableEq, Repr

/-- The call `path.join(__dirname, base, f)`. -/
def pathJoin (dirname : List String) (base f : String) : Path :=
  { segs := (segments base ++ segments f).foldl normStep dirname,
    trailing := decide (f.data.getLast? = some '/') }

/-- Places a path can denote. -/
inductive Target where
  | uploadsEntry (n : String)
  | imagesEntry (n : String)
  | uploadsDir
  | imagesDir
  | publicDir
  | ancestor
  | belowFile
  | other (p : List String)
deriving DecidableEq, Repr

/-- Place denoted by absolute path components. -/
def locate (dirname p : List String) : Target :=
  if dirname.isPrefixOf p then
    match p.drop dirname.length with
    | [] => .ancestor
    | [a] =>
      if a = "uploads" then .uploadsDir
      else if a = "public" then .publicDir
      else .other p
    | [a, n] =>
      if a = "uploads" then .uploadsEntry n
      else if a = "public" ∧ n = "images" then .imagesDir
      else .other p
    | a :: b :: n :: rest =>
      if a = "uploads" then .belowFile
      else if a = "public" ∧ b = "images" then
        (if rest = [] then .imagesEntry n else .belowFile)
      else .other p
  else if p.isPrefixOf dirname then .ancestor
  else .other p

/-- Entry of the outside world at a path. -/
def lookupOther : List (List String × Node) → List String → Option Node
  | [], _ => none
  | (q, n) :: rest, p => if q = p then some n else lookupOther rest p

/-- What the file system holds at absolute path components. -/
def stat (fs : FS) (p : List String) : Option Node :=
  match locate fs.dirname p with
  | .uploadsEntry n => ((entries fs.uploads).lookup n).map Node.file
  | .imagesEntry n => ((entries fs.images).lookup n).map Node.file
  | .uploadsDir => if fs.uploads.isSome then some .dir else none
  | .imagesDir => if fs.images.isSome then some .dir else none
  | .publicDir => if fs.images.isSome then some .dir else none
  | .ancestor => some .dir
  | .belowFile => none
  | .other q => lookupOther fs.other q

/-- The call `fs.existsSync(p)`: a directory exists with or without a trailing
`/`, a regular file only without. -/
def existsSync (fs : FS) (p : Path) : Bool :=
  match stat fs p.segs with
  | some .dir => true
  | some (.file _) => !p.trailing
  | none => false

/-- The call `fs.unlinkSync(p)`: a regular file is removed; on anything else
the call throws (`none`). -/
def unlinkSync (fs : FS) (p : Path) : Option FS :=
  match stat fs p.segs with
  | some (.file _) =>
    if p.trailing then none
    else
      match locate fs.dirname p.segs with
      | .uploadsEntry n => some { fs with uploads := some ((entries fs.uploads).remove n) }
      | .imagesEntry n => some { fs with images := some ((entries fs.images).remove n) }
      | .other q => some { fs with other := fs.other.filter (fun e => decide (e.1 ≠ q)) }
      | _ => none
  | _ => none

/-- Write performed by multer's disk storage: the content goes to the entry
`name` of the storage directory, replacing a file of that name.  The upload
route only writes plain names (the stored name of a base name is plain), for
which `path.join(dir, name)` is that entry; under another name nothing is
written. -/
def writeFile (fs : FS) (path name : String) (b : Bytes) : FS :=
  if h : isPlain name = true then
    match fs.dir path with
    | some d => fs.setDir path (some (d.write ⟨name, h⟩ b))
    | none => fs
  else fs

/-- The method `s.startsWith(p)` of JavaScript strings. -/
def startsWith (s p : String) : Bool :=
  p.data.isPrefixOf s.data

/-- The file object passed to the file filter and the storage callbacks:
declared content type, original name and content. -/
structure IncomingFile where
  mimetype : String
  originalname : String
  content : Bytes
deriving DecidableEq, Repr

/-- A file part as multer hands it over: the original name is the base name of
the client's file name, so it holds no `/`. -/
structure Upload extends IncomingFile where
  base : decide ('/' ∉ originalname.data) = true
deriving DecidableEq

/-- The `req.file` object after multer stored the part. -/
structure StoredFile where
  mimetype : String
  originalname : String
  destination : String
  filename : String
  path : String
deriving DecidableEq, Repr

/-- Directory chosen by `storage.destination` (lines 19-22). -/
def uploadDir (mimetype : String) : String :=
  if startsWith mimetype "image/" then "public/images" else "uploads"

/-- The callback `storage.destination`: chooses the directory, creates it when
it does not exist, and passes it on. -/
def destination (fs : FS) (file : IncomingFile) : FS × String :=
  let dir := uploadDir file.mimetype
  let fs1 := if !dirExistsSync fs dir then mkdirSync fs dir else fs
  (fs1, dir)

/-- The callback `storage.filename`: `Date.now() + '-' + file.originalname`. -/
def filename (now : Nat) (file : IncomingFile) : String :=
  Nat.repr now ++ "-" ++ file.originalname

/-- The option `fileFilter` of the multer instance (lines 36-39): every file is
accepted. -/
def fileFilter (_file : IncomingFile) : Bool :=
  true

/-- The disk storage of multer on a file part: both callbacks are run, the
content is written to `path.join(destination, filename)`, and the fields of
`req.file` are filled in. -/
def multerSingle (fs : FS) (now : Nat) (file : Upload) : FS × StoredFile :=
  let (fs1, dir) := destination fs file.toIncomingFile
  let name := filename now file.toIncomingFile
  (writeFile fs1 dir name file.content,
    { mimetype := file.mimetype, originalname := file.originalname,
      destination := dir, filename := name, path := dir ++ "/" ++ name })

/-- Body of the successful upload response. -/
structure UploadInfo where
  message : String
  filename : String
  path : String
  url : String
  isImage : Bool
deriving DecidableEq, Repr

/-- Responses of the handlers.  `exception` is a handler that threw (Express
answers 500); `notSent` is `res.sendFile` or `res.download` on a path that is
not a regular file, where the answer is left to Express. -/
inductive Response where
  | uploaded (info : UploadInfo)
  | message (text : String)
  | error (status : Nat) (text : String)
  | sendFile (content : Bytes)
  | download (content : Bytes)
  | files (uploads images : List String)
  | images (names : List String)
  | exception
  | notSent
deriving DecidableEq, Repr

/-- The call `res.sendFile(p)`. -/
def sendFile (fs : FS) (p : Path) : Response :=
  match stat fs p.segs with
  | some (.file b) => if p.trailing then .notSent else .sendFile b
  | _ => .notSent

/-- The call `res.download(p)`. -/
def download (fs : FS) (p : Path) : Response :=
  match stat fs p.segs with
  | some (.file b) => if p.trailing then .notSent else .download b
  | _ => .notSent

/-- The handler of `POST /upload` after the multer middleware (lines 48-65). -/
def uploadHandler (file : Option StoredFile) : Response :=
  match file with
  | none => .error 400 "No file uploaded"
  | some f =>
    let isImage := startsWith f.mimetype "image/"
    let fileUrl := if isImage then "/public/images/" ++ f.filename
      else "/download/" ++ f.filename
    .uploaded
      { message := "File uploaded successfully", filename := f.filename,
        path := f.path, url := fileUrl, isImage := isImage }

/-- The route `POST /upload`: the middleware `upload.single('file')`, then the
handler.  The argument `file` is the file part of the request, `none` when the
request carries none (then `req.file` stays undefined); `now` is the value of
`Date.now()` when the filename callback runs. -/
def postUpload (fs : FS) (now : Nat) (file : Option Upload) : FS × Response :=
  match file with
  | none => (fs, uploadHandler none)
  | some f =>
    if fileFilter f.toIncomingFile then
      let (fs1, stored) := multerSingle fs now f
      (fs1, uploadHandler (some stored))
    else (fs, uploadHandler none)

/-- The route `GET /files` (lines 68-78). -/
def getFiles (fs : FS) : Response :=
  .files
    (if dirExistsSync fs "uploads" then readdirSync fs "uploads" else [])
    (if dirExistsSync fs "public/images" then readdirSync fs "public/images" else [])

/-- The route `GET /images` (lines 81-88). -/
def getImages (fs : FS) : Response :=
  if !dirExistsSync fs "public/images" then .images []
  else .images (readdirSync fs "public/images")

/-- The route `GET /images/:filename` (lines 91-101). -/
def getImage (fs : FS) (filename : String) : Response :=
  let imagePath := pathJoin fs.dirname "public/images" filename
  if !existsSync fs imagePath then .error 404 "Image not found"
  else sendFile fs imagePath

/-- The route `GET /download/:filename` (lines 104-113). -/
def getDownload (fs : FS) (filename : String) : Response :=
  let filePath := pathJoin fs.dirname "uploads" filename
  if !existsSync fs filePath then .error 404 "File not found"
  else download fs filePath

/-- The route `DELETE /files/:filename` (lines 116-132). -/
def deleteFile (fs : FS) (filename : String) : FS × Response :=
  let filePath := pathJoin fs.dirname "uploads" filename
  let imagePath := pathJoin fs.dirname "public/images" filename
  if existsSync fs filePath then
    match unlinkSync fs filePath with
    | some fs1 => (fs1, .message "File deleted successfully")
    | none => (fs, .exception)
  else if existsSync fs imagePath then
    match unlinkSync fs imagePath with
    | some fs1 => (fs1, .message "Image deleted successfully")
    | none => (fs, .exception)
  else
    (fs, .error 404 "File not found")

/-- The requests that change the store. -/
inductive Op where
  | upload (now : Nat) (file : Upload)
  | delete (f : String)
deriving DecidableEq

/-- Store after one request. -/
def step (fs : FS) : Op → FS
  | .upload now file => (postUpload fs now (some file)).1
  | .delete f => (deleteFile fs f).1

/-- Store after a sequence of requests, served one after the other. -/
def run (fs : FS) (ops : List Op) : FS :=
  ops.foldl step fs

/-- Arrival time and original name of the uploads of a sequence of requests. -/
def uploadKeys : List Op → List (Nat × String)
  | [] => []
  | .upload now file :: rest => (now, file.originalname) :: uploadKeys rest
  | .delete _ :: rest => uploadKeys rest

/-- Number denoted by a string of decimal digits. -/
def decimalValue (l : List Char) : Nat :=
  l.foldl (fun a c => 10 * a + (c.toNat - 48)) 0

/-- Every stored name was produced by the naming policy from one of the listed
(arrival time, original name) pairs, and no name is in both directories. -/
def Tracked (fs : FS) (seen : List (Nat × String)) : Prop :=
  (∀ f, presentIn fs "uploads" f = true ∨ presentIn fs "public/images" f = true →
    ∃ k ∈ seen, f = Nat.repr k.1 ++ "-" ++ k.2) ∧
  ∀ f, ¬ (presentIn fs "uploads" f = true ∧ presentIn fs "public/images" f = true)

/-- A store that holds the name `1-a` in both directories. -/
def storeBoth : FS :=
  { uploads := some [(⟨"1-a", rfl⟩, [1])]
    images := some [(⟨"1-a", rfl⟩, [2])]
    dirname := ["srv", "app"]
    other := [] }

/-- A store with one file in each directory, under different names, and the
program text beside them. -/
def storeSplit : FS :=
  { uploads := some [(⟨"1-a.txt", rfl⟩, [7])]
    images := some [(⟨"1-a.png", rfl⟩, [9]), (⟨"2-b.png", rfl⟩, [8])]
    dirname := ["srv", "app"]
    other := [(["srv", "app", "index.js"], .file [1])] }

/-- Store after `n` deletion requests for the same name. -/
def deleteRepeat (fs : FS) (f : String) : Nat → FS
  | 0 => fs
  | n + 1 => deleteRepeat (deleteFile fs f).1 f n



/-! ## Directory lemmas -/

theorem Dir.remove_cons_self (rest : Dir) (n : Name) (b : Bytes) :
    Dir.remove ((n, b) :: rest) n.val = Dir.remove rest n.val := by
  simp [Dir.remove]

theorem Dir.remove_cons_ne (rest : Dir) (n : Name) {f : String} (b : Bytes)
    (h : n.val ≠ f) :
    Dir.remove ((n, b) :: rest) f = (n, b) :: Dir.remove rest f := by
  simp [Dir.remove, h]

theorem Dir.lookup_cons_self (rest : Dir) (n : Name) (b : Bytes) :
    Dir.lookup ((n, b) :: rest) n.val = some b := by
  simp [Dir.lookup]

theorem Dir.lookup_cons_ne (rest : Dir) (n : Name) {f : String} (b : Bytes)
    (h : n.val ≠ f) :
    Dir.lookup ((n, b) :: rest) f = Dir.lookup rest f := by
  simp [Dir.lookup, h]

theorem Dir.lookup_remove_self (d : Dir) (f : String) :
    (d.remove f).lookup f = none := by
  induction d with
  | nil => rfl
  | cons e rest ih =>
    obtain ⟨g, b⟩ := e
    by_cases h : g.val = f
    · subst h
      rw [Dir.remove_cons_self]
      exact ih
    · rw [Dir.remove_cons_ne rest g b h, Dir.lookup_cons_ne _ g b h]
      exact ih

theorem Dir.lookup_remove_ne (d : Dir) {f g : String} (hne : g ≠ f) :
    (d.remove f).lookup g = d.lookup g := by
  induction d with
  | nil => rfl
  | cons e rest ih =>
    obtain ⟨k, b⟩ := e
    by_cases h : k.val = f
    · subst h
      have hk : k.val ≠ g := fun hkg => hne hkg.symm
      rw [Dir.remove_cons_self, Dir.lookup_cons_ne rest k b hk]
      exact ih
    · rw [Dir.remove_cons_ne rest k b h]
      by_cases hk : k.val = g
      · subst hk
        rw [Dir.lookup_cons_self, Dir.lookup_cons_self]
      · rw [Dir.lookup_cons_ne _ k b hk, Dir.lookup_cons_ne _ k b hk]
        exact ih

theorem Dir.remove_of_lookup_none (d : Dir) (f : String) (h : d.lookup f = none) :
    d.remove f = d := by
  induction d with
  | nil => rfl
  | cons e rest ih =>
    obtain ⟨g, b⟩ := e
    by_cases hg : g.val = f
    · subst hg
      rw [Dir.lookup_cons_self] at h
      cases h
    · rw [Dir.lookup_cons_ne rest g b hg] at h
      rw [Dir.remove_cons_ne rest g b hg, ih h]

theorem Dir.lookup_write_self (d : Dir) (n : Name) (b : Bytes) :
    (d.write n b).lookup n.val = some b := by
  simp [Dir.write, Dir.lookup]

theorem Dir.lookup_write_ne (d : Dir) (n : Name) {g : String} (b : Bytes)
    (hne : g ≠ n.val) :
    (d.write n b).lookup g = d.lookup g := by
  have hfg : n.val ≠ g := fun h => hne h.symm
  rw [Dir.write, Dir.lookup_cons_ne _ n b hfg, Dir.lookup_remove_ne d hne]

theorem Dir.lookup_remove_some (d : Dir) (f g : String) (b : Bytes)
    (h : (d.remove f).lookup g = some b) : d.lookup g = some b := by
  by_cases hg : g = f
  · subst hg
    rw [Dir.lookup_remove_self] at h
    cases h
  · rwa [Dir.lookup_remove_ne d hg] at h

theorem Dir.isPlain_of_lookup (d : Dir) (f : String) (b : Bytes)
    (h : d.lookup f = some b) : isPlain f = true := by
  induction d with
  | nil => cases h
  | cons e rest ih =>
    obtain ⟨g, c⟩ := e
    by_cases hg : g.val = f
    · rw [← hg]
      exact g.property
    · rw [Dir.lookup_cons_ne rest g c hg] at h
      exact ih h

@[simp]
theorem entries_some (d : Dir) : entries (some d) = d := rfl

@[simp]
theorem entries_none : entries none = [] := rfl

/-! ## Decimal rendering -/

theorem digitChar_toNat (k : Nat) (h : k < 10) : (Nat.digitChar k).toNat - 48 = k := by
  interval_cases k <;> rfl

theorem digitChar_ne_dash (k : Nat) (h : k < 10) : Nat.digitChar k ≠ '-' := by
  interval_cases k <;> decide

theorem digitChar_ne_slash (k : Nat) (h : k < 10) : Nat.digitChar k ≠ '/' := by
  interval_cases k <;> decide

theorem foldl_toDigitsCore (fuel : Nat) : ∀ (n : Nat) (ds : List Char), n < fuel →
    (Nat.toDigitsCore 10 fuel n ds).foldl (fun a c => 10 * a + (c.toNat - 48)) 0
      = ds.foldl (fun a c => 10 * a + (c.toNat - 48)) n := by
  induction fuel with
  | zero => intro n ds h; omega
  | succ fuel ih =>
    intro n ds h
    have hd := digitChar_toNat (n % 10) (Nat.mod_lt _ (by decide))
    by_cases h0 : n / 10 = 0
    · have hn : n % 10 = n := by omega
      simp only [Nat.toDigitsCore, h0, if_true, List.foldl_cons, hd]
      rw [hn]; simp
    · simp only [Nat.toDigitsCore, h0, if_false]
      rw [ih (n / 10) _ (by omega)]
      simp only [List.foldl_cons, hd]
      congr 1
      omega

theorem decimalValue_repr (n : Nat) : decimalValue (Nat.repr n).data = n := by
  have := foldl_toDigitsCore (n + 1) n [] (by omega)
  simpa [decimalValue, Nat.repr, Nat.toDigits] using this

theorem not_mem_toDigitsCore (c : Char) (hc : ∀ k, k < 10 → Nat.digitChar k ≠ c)
    (fuel : Nat) : ∀ (n : Nat) (ds : List Char),
    c ∉ ds → c ∉ Nat.toDigitsCore 10 fuel n ds := by
  induction fuel with
  | zero => intro n ds h; simpa [Nat.toDigitsCore] using h
  | succ fuel ih =>
    intro n ds h
    have hd := hc (n % 10) (Nat.mod_lt _ (by decide))
    have hcons : c ∉ Nat.digitChar (n % 10) :: ds := by
      simp only [List.mem_cons, not_or]
      exact ⟨fun e => hd e.symm, h⟩
    by_cases h0 : n / 10 = 0
    · simpa only [Nat.toDigitsCore, h0, if_true] using hcons
    · simp only [Nat.toDigitsCore, h0, if_false]
      exact ih _ _ hcons

theorem dash_not_mem_repr (n : Nat) : '-' ∉ (Nat.repr n).data := by
  have := not_mem_toDigitsCore '-' digitChar_ne_dash (n + 1) n [] (by simp)
  simpa [Nat.repr, Nat.toDigits] using this

theorem slash_not_mem_repr (n : Nat) : '/' ∉ (Nat.repr n).data := by
  have := not_mem_toDigitsCore '/' digitChar_ne_slash (n + 1) n [] (by simp)
  simpa [Nat.repr, Nat.toDigits] using this

theorem append_sep_inj {α : Type} (sep : α) : ∀ (a b x y : List α), sep ∉ a → sep ∉ b →
    a ++ sep :: x = b ++ sep :: y → a = b ∧ x = y := by
  intro a
  induction a with
  | nil =>
    intro b x y _ hb h
    cases b with
    | nil => simpa using h
    | cons c b =>
      simp only [List.nil_append, List.cons_append, List.cons.injEq] at h
      exact absurd (h.1 ▸ List.mem_cons_self _ _) hb
  | cons c a ih =>
    intro b x y ha hb h
    cases b with
    | nil =>
      simp only [List.nil_append, List.cons_append, List.cons.injEq] at h
      exact absurd (h.1 ▸ List.mem_cons_self _ _) ha
    | cons d b =>
      simp only [List.cons_append, List.cons.injEq] at h
      have ha' : sep ∉ a := fun m => ha (List.mem_cons_of_mem _ m)
      have hb' : sep ∉ b := fun m => hb (List.mem_cons_of_mem _ m)
      obtain ⟨e1, e2⟩ := ih b x y ha' hb' h.2
      exact ⟨by rw [h.1, e1], e2⟩

theorem repr_sep_inj (t1 t2 : Nat) (n1 n2 : String)
    (h : Nat.repr t1 ++ "-" ++ n1 = Nat.repr t2 ++ "-" ++ n2) : t1 = t2 ∧ n1 = n2 := by
  have hd := congrArg String.data h
  simp only [String.data_append, List.append_assoc] at hd
  rw [List.singleton_append, List.singleton_append] at hd
  obtain ⟨e1, e2⟩ := append_sep_inj '-' _ _ _ _ (dash_not_mem_repr t1) (dash_not_mem_repr t2) hd
  refine ⟨?_, String.ext e2⟩
  rw [← decimalValue_repr t1, ← decimalValue_repr t2, e1]

/-! ## Plain names and path resolution -/

theorem isPlain_iff (s : String) :
    isPlain s = true ↔ s ≠ "" ∧ s ≠ "." ∧ s ≠ ".." ∧ '/' ∉ s.data := by
  simp [isPlain]

theorem isPlain_filename (now : Nat) (file : Upload) :
    isPlain (filename now file.toIncomingFile) = true := by
  have hb : '/' ∉ file.originalname.data := by simpa using file.base
  have hdash : '-' ∈ (filename now file.toIncomingFile).data := by
    simp [filename, String.data_append]
  rw [isPlain_iff]
  refine ⟨?_, ?_, ?_, ?_⟩
  · intro e; rw [e] at hdash; simp at hdash
  · intro e; rw [e] at hdash; simp at hdash
  · intro e; rw [e] at hdash; simp at hdash
  · simp only [filename, String.data_append, List.mem_append, not_or]
    exact ⟨⟨slash_not_mem_repr now, by decide⟩, hb⟩

theorem splitSlash_of_not_mem : ∀ (cs : List Char), '/' ∉ cs → splitSlash cs = [cs] := by
  intro cs
  induction cs with
  | nil => intro _; rfl
  | cons c cs ih =>
    intro h
    simp only [List.mem_cons, not_or] at h
    have hc : c ≠ '/' := fun e => h.1 e.symm
    simp [splitSlash, hc, ih h.2]

theorem segments_of_isPlain (f : String) (h : isPlain f = true) : segments f = [f] := by
  rw [isPlain_iff] at h
  simp [segments, splitSlash_of_not_mem f.data h.2.2.2]

theorem normStep_of_isPlain (stack : List String) (f : String) (h : isPlain f = true) :
    normStep stack f = stack ++ [f] := by
  rw [isPlain_iff] at h
  simp [normStep, h.1, h.2.1, h.2.2.1]

theorem trailing_of_isPlain (f : String) (h : isPlain f = true) :
    decide (f.data.getLast? = some '/') = false := by
  rw [isPlain_iff] at h
  simp only [decide_eq_false_iff_not]
  intro e
  exact h.2.2.2 (List.mem_of_getLast?_eq_some e)

theorem pathJoin_uploads (dirname : List String) (f : String) (h : isPlain f = true) :
    pathJoin dirname "uploads" f = ⟨dirname ++ ["uploads", f], false⟩ := by
  have hs : segments "uploads" = ["uploads"] := by decide
  have hn : normStep dirname "uploads" = dirname ++ ["uploads"] :=
    normStep_of_isPlain dirname "uploads" (by decide)
  simp [pathJoin, hs, segments_of_isPlain f h, hn, normStep_of_isPlain _ f h,
    trailing_of_isPlain f h]

theorem pathJoin_images (dirname : List String) (f : String) (h : isPlain f = true) :
    pathJoin dirname "public/images" f = ⟨dirname ++ ["public", "images", f], false⟩ := by
  have hs : segments "public/images" = ["public", "images"] := by decide
  have hn1 : normStep dirname "public" = dirname ++ ["public"] :=
    normStep_of_isPlain dirname "public" (by decide)
  have hn2 : normStep (dirname ++ ["public"]) "images" = dirname ++ ["public"] ++ ["images"] :=
    normStep_of_isPlain _ "images" (by decide)
  simp [pathJoin, hs, segments_of_isPlain f h, hn1, hn2, normStep_of_isPlain _ f h,
    trailing_of_isPlain f h]

theorem locate_uploads (dirname : List String) (f : String) :
    locate dirname (dirname ++ ["uploads", f]) = .uploadsEntry f := by
  simp [locate]

theorem locate_images (dirname : List String) (f : String) :
    locate dirname (dirname ++ ["public", "images", f]) = .imagesEntry f := by
  simp [locate]

theorem stat_uploads (fs : FS) (f : String) :
    stat fs (fs.dirname ++ ["uploads", f]) = ((entries fs.uploads).lookup f).map Node.file := by
  simp [stat, locate_uploads]

theorem stat_images (fs : FS) (f : String) :
    stat fs (fs.dirname ++ ["public", "images", f])
      = ((entries fs.images).lookup f).map Node.file := by
  simp [stat, locate_images]

theorem fileIn_uploads (fs : FS) (f : String) :
    fileIn fs "uploads" f = (entries fs.uploads).lookup f := by
  cases h : fs.uploads <;> simp [fileIn, FS.dir, h, Dir.lookup]

theorem fileIn_images (fs : FS) (f : String) :
    fileIn fs "public/images" f = (entries fs.images).lookup f := by
  cases h : fs.images <;> simp [fileIn, FS.dir, h, Dir.lookup]

theorem presentIn_uploads (fs : FS) (f : String) :
    presentIn fs "uploads" f = ((entries fs.uploads).lookup f).isSome := by
  rw [presentIn, fileIn_uploads]

theorem presentIn_images (fs : FS) (f : String) :
    presentIn fs "public/images" f = ((entries fs.images).lookup f).isSome := by
  rw [presentIn, fileIn_images]

theorem isPlain_of_fileIn (fs : FS) (path f : String) (b : Bytes)
    (h : fileIn fs path f = some b) : isPlain f = true := by
  unfold fileIn at h
  split at h
  · exact Dir.isPlain_of_lookup _ f b h
  · cases h



/-! ## The handlers on plain names -/

theorem existsSync_uploads_plain (fs : FS) (f : String) (h : isPlain f = true) :
    existsSync fs (pathJoin fs.dirname "uploads" f) = presentIn fs "uploads" f := by
  rw [pathJoin_uploads _ f h, presentIn_uploads]
  simp only [existsSync, stat_uploads]
  cases (entries fs.uploads).lookup f <;> simp

theorem existsSync_images_plain (fs : FS) (f : String) (h : isPlain f = true) :
    existsSync fs (pathJoin fs.dirname "public/images" f) = presentIn fs "public/images" f := by
  rw [pathJoin_images _ f h, presentIn_images]
  simp only [existsSync, stat_images]
  cases (entries fs.images).lookup f <;> simp

theorem getImage_plain (fs : FS) (f : String) (h : isPlain f = true) :
    getImage fs f =
      match fileIn fs "public/images" f with
      | none => .error 404 "Image not found"
      | some b => .sendFile b := by
  simp only [getImage, existsSync_images_plain fs f h, presentIn]
  rw [pathJoin_images _ f h, fileIn_images]
  simp only [sendFile, stat_images]
  cases (entries fs.images).lookup f <;> simp

theorem getDownload_plain (fs : FS) (f : String) (h : isPlain f = true) :
    getDownload fs f =
      match fileIn fs "uploads" f with
      | none => .error 404 "File not found"
      | some b => .download b := by
  simp only [getDownload, existsSync_uploads_plain fs f h, presentIn]
  rw [pathJoin_uploads _ f h, fileIn_uploads]
  simp only [download, stat_uploads]
  cases (entries fs.uploads).lookup f <;> simp

theorem unlinkSync_uploads_plain (fs : FS) (f : String) (b : Bytes) (h : isPlain f = true)
    (hb : (entries fs.uploads).lookup f = some b) :
    unlinkSync fs (pathJoin fs.dirname "uploads" f)
      = some { fs with uploads := some ((entries fs.uploads).remove f) } := by
  rw [pathJoin_uploads _ f h]
  simp [unlinkSync, stat_uploads, hb, locate_uploads]

theorem unlinkSync_images_plain (fs : FS) (f : String) (b : Bytes) (h : isPlain f = true)
    (hb : (entries fs.images).lookup f = some b) :
    unlinkSync fs (pathJoin fs.dirname "public/images" f)
      = some { fs with images := some ((entries fs.images).remove f) } := by
  rw [pathJoin_images _ f h]
  simp [unlinkSync, stat_images, hb, locate_images]

theorem deleteFile_uploads (fs : FS) (f : String) (b : Bytes)
    (h : fileIn fs "uploads" f = some b) :
    deleteFile fs f =
      ({ fs with uploads := some ((entries fs.uploads).remove f) },
        .message "File deleted successfully") := by
  have hp := isPlain_of_fileIn fs _ f b h
  have hb := h
  rw [fileIn_uploads] at hb
  simp [deleteFile, existsSync_uploads_plain fs f hp, presentIn, h,
    unlinkSync_uploads_plain fs f b hp hb]

theorem deleteFile_images (fs : FS) (f : String) (b : Bytes)
    (hu : fileIn fs "uploads" f = none) (h : fileIn fs "public/images" f = some b) :
    deleteFile fs f =
      ({ fs with images := some ((entries fs.images).remove f) },
        .message "Image deleted successfully") := by
  have hp := isPlain_of_fileIn fs _ f b h
  have hb := h
  rw [fileIn_images] at hb
  simp [deleteFile, existsSync_uploads_plain fs f hp, existsSync_images_plain fs f hp,
    presentIn, h, hu, unlinkSync_images_plain fs f b hp hb]

theorem deleteFile_absent (fs : FS) (f : String) (hp : isPlain f = true)
    (hu : fileIn fs "uploads" f = none) (hi : fileIn fs "public/images" f = none) :
    deleteFile fs f = (fs, .error 404 "File not found") := by
  simp [deleteFile, existsSync_uploads_plain fs f hp, existsSync_images_plain fs f hp,
    presentIn, hu, hi]

/-! ## The upload route, case by case -/

theorem postUpload_image (fs : FS) (now : Nat) (file : Upload)
    (h : startsWith file.mimetype "image/" = true) :
    postUpload fs now (some file) =
      ({ fs with images := some ((entries fs.images).write
            ⟨filename now file.toIncomingFile, isPlain_filename now file⟩ file.content) },
        .uploaded
          { message := "File uploaded successfully",
            filename := filename now file.toIncomingFile,
            path := "public/images" ++ "/" ++ filename now file.toIncomingFile,
            url := "/public/images/" ++ filename now file.toIncomingFile,
            isImage := true }) := by
  have hp := isPlain_filename now file
  cases hi : fs.images <;>
    simp [postUpload, fileFilter, multerSingle, destination, uploadDir, h, dirExistsSync,
      mkdirSync, writeFile, FS.dir, FS.setDir, uploadHandler, entries, hi, hp]

theorem postUpload_other (fs : FS) (now : Nat) (file : Upload)
    (h : startsWith file.mimetype "image/" = false) :
    postUpload fs now (some file) =
      ({ fs with uploads := some ((entries fs.uploads).write
            ⟨filename now file.toIncomingFile, isPlain_filename now file⟩ file.content) },
        .uploaded
          { message := "File uploaded successfully",
            filename := filename now file.toIncomingFile,
            path := "uploads" ++ "/" ++ filename now file.toIncomingFile,
            url := "/download/" ++ filename now file.toIncomingFile,
            isImage := false }) := by
  have hp := isPlain_filename now file
  cases hu : fs.uploads <;>
    simp [postUpload, fileFilter, multerSingle, destination, uploadDir, h, dirExistsSync,
      mkdirSync, writeFile, FS.dir, FS.setDir, uploadHandler, entries, hu, hp]

/-! ## Deletion never adds a file -/

theorem presentIn_remove_uploads (fs : FS) (n path g : String)
    (h : presentIn { fs with uploads := some ((entries fs.uploads).remove n) } path g = true) :
    presentIn fs path g = true := by
  by_cases hp : path = "uploads"
  · subst hp
    rw [presentIn_uploads] at h ⊢
    simp only [entries_some] at h
    obtain ⟨b, hb⟩ := Option.isSome_iff_exists.mp h
    rw [Dir.lookup_remove_some _ n g b hb]
    rfl
  · simpa [presentIn, fileIn, FS.dir, hp] using h

theorem presentIn_remove_images (fs : FS) (n path g : String)
    (h : presentIn { fs with images := some ((entries fs.images).remove n) } path g = true) :
    presentIn fs path g = true := by
  by_cases hp : path = "public/images"
  · subst hp
    rw [presentIn_images] at h ⊢
    simp only [entries_some] at h
    obtain ⟨b, hb⟩ := Option.isSome_iff_exists.mp h
    rw [Dir.lookup_remove_some _ n g b hb]
    rfl
  · simpa [presentIn, fileIn, FS.dir, hp] using h

theorem presentIn_of_unlinkSync (fs fs1 : FS) (p : Path) (path g : String)
    (hu : unlinkSync fs p = some fs1) (h : presentIn fs1 path g = true) :
    presentIn fs path g = true := by
  unfold unlinkSync at hu
  split at hu
  · split at hu
    · cases hu
    · split at hu
      · cases hu
        exact presentIn_remove_uploads fs _ path g h
      · cases hu
        exact presentIn_remove_images fs _ path g h
      · cases hu
        simpa [presentIn, fileIn, FS.dir] using h
      · cases hu
  · cases hu

theorem presentIn_deleteFile (fs : FS) (f g path : String)
    (h : presentIn (deleteFile fs f).1 path g = true) : presentIn fs path g = true := by
  unfold deleteFile at h
  simp only at h
  split at h
  · split at h
    · rename_i fs1 hu
      exact presentIn_of_unlinkSync fs fs1 _ path g hu h
    · exact h
  · split at h
    · split at h
      · rename_i fs1 hu
        exact presentIn_of_unlinkSync fs fs1 _ path g hu h
      · exact h
    · exact h



/-! ## Claims -/

/-- C1: upload/retrieval round trip.  For every store, arrival time and
uploaded file, the upload succeeds and reports a file name under which the
matching retrieval route (inline view for a declared type that begins with
`image/`, download otherwise) returns exactly the uploaded bytes from the
resulting store. -/
theorem C1_upload_retrieval_round_trip (fs : FS) (now : Nat) (file : Upload) :
    ∃ info : UploadInfo,
      (postUpload fs now (some file)).2 = .uploaded info ∧
      (if startsWith file.mimetype "image/" then
        getImage (postUpload fs now (some file)).1 info.filename = .sendFile file.content
      else
        getDownload (postUpload fs now (some file)).1 info.filename
          = .download file.content) := by
  have hp := isPlain_filename now file
  cases h : startsWith file.mimetype "image/"
  · rw [postUpload_other fs now file h]
    refine ⟨_, rfl, ?_⟩
    have hw := Dir.lookup_write_self (entries fs.uploads)
      ⟨filename now file.toIncomingFile, hp⟩ file.content
    simp only [Bool.false_eq_true, if_false]
    rw [getDownload_plain _ _ hp, fileIn_uploads]
    simp only [entries_some]
    rw [hw]
  · rw [postUpload_image fs now file h]
    refine ⟨_, rfl, ?_⟩
    have hw := Dir.lookup_write_self (entries fs.images)
      ⟨filename now file.toIncomingFile, hp⟩ file.content
    simp only [if_true]
    rw [getImage_plain _ _ hp, fileIn_images]
    simp only [entries_some]
    rw [hw]

/-- C2: placement is decided by the declared content type alone.  The
directory chosen by the destination callback is `public/images` exactly when
the declared type begins with `image/` and `uploads` otherwise; the file is
written to that directory, the other directory is left as it was, and the
`isImage` flag of the response is that same decision. -/
theorem C2_placement_by_declared_type (fs : FS) (now : Nat) (file : Upload) :
    ((destination fs file.toIncomingFile).2 = "public/images"
      ↔ startsWith file.mimetype "image/" = true) ∧
    ((destination fs file.toIncomingFile).2 = "uploads"
      ↔ startsWith file.mimetype "image/" = false) ∧
    ∃ info : UploadInfo,
      (postUpload fs now (some file)).2 = .uploaded info ∧
      info.isImage = startsWith file.mimetype "image/" ∧
      (if startsWith file.mimetype "image/" then
        fileIn (postUpload fs now (some file)).1 "public/images" info.filename
            = some file.content ∧
          (postUpload fs now (some file)).1.uploads = fs.uploads
      else
        fileIn (postUpload fs now (some file)).1 "uploads" info.filename
            = some file.content ∧
          (postUpload fs now (some file)).1.images = fs.images) := by
  have hp := isPlain_filename now file
  cases h : startsWith file.mimetype "image/"
  · rw [postUpload_other fs now file h]
    refine ⟨by simp [destination, uploadDir, h], by simp [destination, uploadDir, h],
      _, rfl, rfl, ?_⟩
    have hw := Dir.lookup_write_self (entries fs.uploads)
      ⟨filename now file.toIncomingFile, hp⟩ file.content
    simp only [Bool.false_eq_true, if_false, fileIn_uploads, entries_some]
    exact ⟨hw, trivial⟩
  · rw [postUpload_image fs now file h]
    refine ⟨by simp [destination, uploadDir, h], by simp [destination, uploadDir, h],
      _, rfl, rfl, ?_⟩
    have hw := Dir.lookup_write_self (entries fs.images)
      ⟨filename now file.toIncomingFile, hp⟩ file.content
    simp only [if_true, fileIn_images, entries_some]
    exact ⟨hw, trivial⟩

/-- C2, the two examples of the specification: `image/png` with `a.png` goes to
the image directory, `text/plain` with `a.txt` to the generic directory. -/
theorem C2_examples :
    fileIn (postUpload (FS.empty ["srv", "app"] []) 1700000000000
        (some ⟨⟨"image/png", "a.png", [1, 2]⟩, rfl⟩)).1
        "public/images" "1700000000000-a.png" = some [1, 2] ∧
    fileIn (postUpload (FS.empty ["srv", "app"] []) 1700000000000
        (some ⟨⟨"text/plain", "a.txt", [3]⟩, rfl⟩)).1
        "uploads" "1700000000000-a.txt" = some [3] := by
  constructor <;> decide

/-- C3, as stated, fails: an upload of type `image/png` reports the url
`/public/images/1-a.png`, which is not `/images/` followed by the reported
file name. -/
theorem C3_counterexample_image_url :
    ∃ info : UploadInfo,
      (postUpload (FS.empty ["srv", "app"] []) 1
        (some ⟨⟨"image/png", "a.png", []⟩, rfl⟩)).2 = .uploaded info ∧
      startsWith "image/png" "image/" = true ∧
      info.filename = "1-a.png" ∧
      info.url = "/public/images/1-a.png" ∧
      info.url ≠ "/images/" ++ info.filename := by
  refine ⟨_, rfl, by decide, by decide, by decide, by decide⟩

/-- C3, amended: the reported url is `/public/images/` followed by the reported
file name (the path under the static mount of `public`) when the declared type
begins with `image/`, and `/download/` followed by the reported file name
otherwise. -/
theorem C3_access_url (fs : FS) (now : Nat) (file : Upload) :
    ∃ info : UploadInfo,
      (postUpload fs now (some file)).2 = .uploaded info ∧
      info.url =
        (if startsWith file.mimetype "image/" then "/public/images/" ++ info.filename
         else "/download/" ++ info.filename) := by
  cases h : startsWith file.mimetype "image/"
  · rw [postUpload_other fs now file h]
    exact ⟨_, rfl, by simp⟩
  · rw [postUpload_image fs now file h]
    exact ⟨_, rfl, by simp⟩

/-- C4: naming policy.  For every original name and arrival time the name
produced by the filename callback is the decimal rendering of the time, then
`-`, then the original name unchanged; for the empty original name it is the
decimal rendering followed by `-`; and it is the file name the upload reports
and stores the content under. -/
theorem C4_naming_policy (fs : FS) (now : Nat) (file : IncomingFile) (up : Upload) :
    filename now file = Nat.repr now ++ "-" ++ file.originalname ∧
    filename now { file with originalname := "" } = Nat.repr now ++ "-" ∧
    ∃ info : UploadInfo,
      (postUpload fs now (some up)).2 = .uploaded info ∧
      info.filename = Nat.repr now ++ "-" ++ up.originalname ∧
      fileIn (postUpload fs now (some up)).1 (uploadDir up.mimetype)
        (Nat.repr now ++ "-" ++ up.originalname) = some up.content := by
  refine ⟨rfl, by simp [filename], ?_⟩
  have hp := isPlain_filename now up
  cases h : startsWith up.mimetype "image/"
  · rw [postUpload_other fs now up h]
    refine ⟨_, rfl, rfl, ?_⟩
    have hw := Dir.lookup_write_self (entries fs.uploads)
      ⟨filename now up.toIncomingFile, hp⟩ up.content
    simp only [uploadDir, h, Bool.false_eq_true, if_false, fileIn_uploads, entries_some]
    exact hw
  · rw [postUpload_image fs now up h]
    refine ⟨_, rfl, rfl, ?_⟩
    have hw := Dir.lookup_write_self (entries fs.images)
      ⟨filename now up.toIncomingFile, hp⟩ up.content
    simp only [uploadDir, h, if_true, fileIn_images, entries_some]
    exact hw

/-- C5: deletion tie-break.  When the name is present in both directories,
the deletion answers with the generic-file message, removes the copy in
`uploads` and nothing else there, and leaves `public/images` as it was, so
the inline view still returns the image copy with its bytes. -/
theorem C5_delete_prefers_uploads (fs : FS) (f : String) (bu bi : Bytes)
    (hu : fileIn fs "uploads" f = some bu)
    (hi : fileIn fs "public/images" f = some bi) :
    (deleteFile fs f).2 = .message "File deleted successfully" ∧
    fileIn (deleteFile fs f).1 "uploads" f = none ∧
    (∀ g, g ≠ f →
      fileIn (deleteFile fs f).1 "uploads" g = fileIn fs "uploads" g) ∧
    (deleteFile fs f).1.images = fs.images ∧
    fileIn (deleteFile fs f).1 "public/images" f = some bi ∧
    getImage (deleteFile fs f).1 f = .sendFile bi := by
  have hp := isPlain_of_fileIn fs _ f bu hu
  rw [deleteFile_uploads fs f bu hu]
  rw [fileIn_images] at hi
  refine ⟨rfl, ?_, ?_, rfl, ?_, ?_⟩
  · simp [fileIn_uploads, Dir.lookup_remove_self]
  · intro g hg
    simp [fileIn_uploads, Dir.lookup_remove_ne _ hg]
  · simp [fileIn_images, hi]
  · simp [getImage_plain _ f hp, fileIn_images, hi]

/-- C5 at a concrete store that holds `1-a` in both directories. -/
theorem C5_delete_prefers_uploads_witness :
    fileIn storeBoth "uploads" "1-a" = some [1] ∧
    fileIn storeBoth "public/images" "1-a" = some [2] ∧
    (deleteFile storeBoth "1-a").2 = .message "File deleted successfully" ∧
    getImage (deleteFile storeBoth "1-a").1 "1-a" = .sendFile [2] :=
  have h := C5_delete_prefers_uploads storeBoth "1-a" [1] [2] (by decide) (by decide)
  ⟨by decide, by decide, h.1, h.2.2.2.2.2⟩



/-- C6, as stated, fails: the name `../../uploads/1-a.txt` is not a file of
`public/images`, yet the inline view answers with the bytes of the file
`1-a.txt` of `uploads`, and answers 404 once `uploads` is taken away; in the
same way the download of `../public/images/1-a.png`, which is not a file of
`uploads`, answers with the bytes of the image. -/
theorem C6_counterexample_traversal :
    presentIn storeSplit "public/images" "../../uploads/1-a.txt" = false ∧
    getImage storeSplit "../../uploads/1-a.txt" = .sendFile [7] ∧
    getImage { storeSplit with uploads := none } "../../uploads/1-a.txt"
      = .error 404 "Image not found" ∧
    presentIn storeSplit "uploads" "../public/images/1-a.png" = false ∧
    getDownload storeSplit "../public/images/1-a.png" = .download [9] ∧
    getDownload { storeSplit with images := none } "../public/images/1-a.png"
      = .error 404 "File not found" := by
  refine ⟨by decide, by decide, by decide, by decide, by decide, by decide⟩

/-- C6, amended: for every store and every plain name (one path component:
not empty, without `/`, and not `.` or `..`), the inline view answers 404
exactly when the name is absent from `public/images`, and its answer does not
depend on `uploads` or on the rest of the file system; the download answers
404 exactly when the name is absent from `uploads`, and its answer does not
depend on `public/images` or on the rest of the file system. -/
theorem C6_asymmetric_lookup (fs : FS) (f : String) (hp : isPlain f = true) :
    (getImage fs f = .error 404 "Image not found"
      ↔ presentIn fs "public/images" f = false) ∧
    (∀ (u : Option Dir) (o : List (List String × Node)),
      getImage { fs with uploads := u, other := o } f = getImage fs f) ∧
    (getDownload fs f = .error 404 "File not found"
      ↔ presentIn fs "uploads" f = false) ∧
    (∀ (i : Option Dir) (o : List (List String × Node)),
      getDownload { fs with images := i, other := o } f = getDownload fs f) := by
  refine ⟨?_, ?_, ?_, ?_⟩
  · rw [getImage_plain fs f hp, presentIn]
    cases fileIn fs "public/images" f <;> simp
  · intro u o
    rw [getImage_plain _ f hp, getImage_plain fs f hp, fileIn_images, fileIn_images]
  · rw [getDownload_plain fs f hp, presentIn]
    cases fileIn fs "uploads" f <;> simp
  · intro i o
    rw [getDownload_plain _ f hp, getDownload_plain fs f hp, fileIn_uploads, fileIn_uploads]

/-- C6, amended, at a concrete store: `1-a.txt` is a file of `uploads` only. -/
theorem C6_asymmetric_lookup_witness :
    isPlain "1-a.txt" = true ∧
    (getImage storeSplit "1-a.txt" = .error 404 "Image not found"
      ↔ presentIn storeSplit "public/images" "1-a.txt" = false) ∧
    (getDownload storeSplit "1-a.txt" = .error 404 "File not found"
      ↔ presentIn storeSplit "uploads" "1-a.txt" = false) :=
  have h := C6_asymmetric_lookup storeSplit "1-a.txt" (by decide)
  ⟨by decide, h.1, h.2.2.1⟩

/-- C6, the two cases of the specification: a file present only in `uploads`
gives 404 on the inline view, a file present only in `public/images` gives 404
on the download. -/
theorem C6_examples :
    getImage storeSplit "1-a.txt" = .error 404 "Image not found" ∧
    getDownload storeSplit "1-a.txt" = .download [7] ∧
    getDownload storeSplit "1-a.png" = .error 404 "File not found" ∧
    getImage storeSplit "1-a.png" = .sendFile [9] := by
  refine ⟨by decide, by decide, by decide, by decide⟩

theorem deleteRepeat_absent (fs : FS) (f : String) (hp : isPlain f = true)
    (hu : fileIn fs "uploads" f = none) (hi : fileIn fs "public/images" f = none)
    (n : Nat) : deleteRepeat fs f n = fs := by
  induction n with
  | zero => rfl
  | succ n ih => rw [deleteRepeat, deleteFile_absent fs f hp hu hi]; exact ih

/-- C7, as stated, fails: the name `../public/images/1-a.png` is a file of
neither directory, yet its deletion answers with the generic-file message and
removes the image `1-a.png`; and the name `.` is a file of neither directory,
yet its deletion does not answer 404: the path is the directory `uploads`,
which exists, and removing it throws. -/
theorem C7_counterexample_traversal :
    presentIn storeSplit "uploads" "../public/images/1-a.png" = false ∧
    presentIn storeSplit "public/images" "../public/images/1-a.png" = false ∧
    (deleteFile storeSplit "../public/images/1-a.png").2
      = .message "File deleted successfully" ∧
    fileIn storeSplit "public/images" "1-a.png" = some [9] ∧
    fileIn (deleteFile storeSplit "../public/images/1-a.png").1 "public/images" "1-a.png"
      = none ∧
    presentIn storeSplit "uploads" "." = false ∧
    presentIn storeSplit "public/images" "." = false ∧
    deleteFile storeSplit "." = (storeSplit, .exception) := by
  refine ⟨by decide, by decide, by decide, by decide, by decide, by decide, by decide,
    by decide⟩

/-- C7, amended: for every store and every plain name (one path component:
not empty, without `/`, and not `.` or `..`) that is in neither directory, the
deletion answers 404 and returns the store unchanged; hence after any number
of such deletions the store is still the same and one more deletion answers
404 again. -/
theorem C7_delete_absent (fs : FS) (f : String) (hp : isPlain f = true)
    (hu : presentIn fs "uploads" f = false)
    (hi : presentIn fs "public/images" f = false) :
    deleteFile fs f = (fs, .error 404 "File not found") ∧
    ∀ n : Nat, deleteRepeat fs f n = fs ∧
      deleteFile (deleteRepeat fs f n) f = (fs, .error 404 "File not found") := by
  have hu' : fileIn fs "uploads" f = none := by simpa [presentIn] using hu
  have hi' : fileIn fs "public/images" f = none := by simpa [presentIn] using hi
  have hd := deleteFile_absent fs f hp hu' hi'
  refine ⟨hd, fun n => ?_⟩
  rw [deleteRepeat_absent fs f hp hu' hi' n]
  exact ⟨rfl, hd⟩

/-- C7, amended, at a concrete store that does not hold `3-c`. -/
theorem C7_delete_absent_witness :
    isPlain "3-c" = true ∧
    presentIn storeSplit "uploads" "3-c" = false ∧
    presentIn storeSplit "public/images" "3-c" = false ∧
    deleteFile storeSplit "3-c" = (storeSplit, .error 404 "File not found") ∧
    deleteRepeat storeSplit "3-c" 3 = storeSplit :=
  have h := C7_delete_absent storeSplit "3-c" (by decide) (by decide) (by decide)
  ⟨by decide, by decide, by decide, h.1, (h.2 3).1⟩

/-- C8: present to absent.  When the name is present in exactly one of the two
directories, the deletion answers with the generic-file message if it was in
`uploads` and with the image message if it was in `public/images`; afterwards
the name is in neither directory, both retrieval routes and a further deletion
answer 404, and every other name reads the same in both directories. -/
theorem C8_delete_present (fs : FS) (f : String)
    (h : presentIn fs "uploads" f ≠ presentIn fs "public/images" f) :
    (deleteFile fs f).2 =
      .message (if presentIn fs "uploads" f then "File deleted successfully"
        else "Image deleted successfully") ∧
    presentIn (deleteFile fs f).1 "uploads" f = false ∧
    presentIn (deleteFile fs f).1 "public/images" f = false ∧
    getImage (deleteFile fs f).1 f = .error 404 "Image not found" ∧
    getDownload (deleteFile fs f).1 f = .error 404 "File not found" ∧
    deleteFile (deleteFile fs f).1 f = ((deleteFile fs f).1, .error 404 "File not found") ∧
    ∀ g, g ≠ f →
      fileIn (deleteFile fs f).1 "uploads" g = fileIn fs "uploads" g ∧
      fileIn (deleteFile fs f).1 "public/images" g = fileIn fs "public/images" g := by
  cases hu : fileIn fs "uploads" f with
  | some bu =>
    have hp := isPlain_of_fileIn fs _ f bu hu
    have hi : fileIn fs "public/images" f = none := by
      cases hi : fileIn fs "public/images" f with
      | none => rfl
      | some bi => simp [presentIn, hu, hi] at h
    have hi' := hi
    rw [fileIn_images] at hi'
    have hd := deleteFile_uploads fs f bu hu
    have h1 : fileIn (deleteFile fs f).1 "uploads" f = none := by
      simp [hd, fileIn_uploads, Dir.lookup_remove_self]
    have h2 : fileIn (deleteFile fs f).1 "public/images" f = none := by
      simp [hd, fileIn_images, hi']
    refine ⟨by simp [hd, presentIn, hu], by simp [presentIn, h1], by simp [presentIn, h2],
      by simp [getImage_plain _ f hp, h2], by simp [getDownload_plain _ f hp, h1],
      deleteFile_absent _ f hp h1 h2, ?_⟩
    intro g hg
    simp [hd, fileIn_uploads, fileIn_images, Dir.lookup_remove_ne _ hg]
  | none =>
    cases hi : fileIn fs "public/images" f with
    | none => simp [presentIn, hu, hi] at h
    | some bi =>
      have hp := isPlain_of_fileIn fs _ f bi hi
      have hu' := hu
      rw [fileIn_uploads] at hu'
      have hd := deleteFile_images fs f bi hu hi
      have h1 : fileIn (deleteFile fs f).1 "uploads" f = none := by
        simp [hd, fileIn_uploads, hu']
      have h2 : fileIn (deleteFile fs f).1 "public/images" f = none := by
        simp [hd, fileIn_images, Dir.lookup_remove_self]
      refine ⟨by simp [hd, presentIn, hu], by simp [presentIn, h1],
        by simp [presentIn, h2], by simp [getImage_plain _ f hp, h2],
        by simp [getDownload_plain _ f hp, h1], deleteFile_absent _ f hp h1 h2, ?_⟩
      intro g hg
      simp [hd, fileIn_uploads, fileIn_images, Dir.lookup_remove_ne _ hg]

/-- C8 at a concrete store that holds `1-a.png` in `public/images` only. -/
theorem C8_delete_present_witness :
    presentIn storeSplit "uploads" "1-a.png" ≠ presentIn storeSplit "public/images" "1-a.png" ∧
    (deleteFile storeSplit "1-a.png").2
      = .message (if presentIn storeSplit "uploads" "1-a.png"
          then "File deleted successfully" else "Image deleted successfully") ∧
    getImage (deleteFile storeSplit "1-a.png").1 "1-a.png"
      = .error 404 "Image not found" :=
  have h := C8_delete_present storeSplit "1-a.png" (by decide)
  ⟨by decide, h.1, h.2.2.2.1⟩

/-- C10: the naming policy is injective.  Equal stored names come from equal
arrival times and equal original names, whatever characters the original
names contain. -/
theorem C10_naming_injective (t1 t2 : Nat) (f1 f2 : IncomingFile)
    (h : filename t1 f1 = filename t2 f2) :
    t1 = t2 ∧ f1.originalname = f2.originalname :=
  repr_sep_inj t1 t2 f1.originalname f2.originalname h

/-- C10 at a concrete input, with original names that contain `-` and digits. -/
theorem C10_naming_injective_witness :
    filename 12 ⟨"text/plain", "3-4-a", []⟩ = filename 12 ⟨"image/png", "3-4-a", [1]⟩ ∧
    ((12 : Nat) = 12 ∧
      (⟨"text/plain", "3-4-a", []⟩ : IncomingFile).originalname
        = (⟨"image/png", "3-4-a", [1]⟩ : IncomingFile).originalname) :=
  ⟨by decide, C10_naming_injective 12 12 ⟨"text/plain", "3-4-a", []⟩
    ⟨"image/png", "3-4-a", [1]⟩ (by decide)⟩

/-! ## Reachable stores -/

theorem tracked_delete (fs : FS) (seen : List (Nat × String)) (f : String)
    (h : Tracked fs seen) : Tracked (deleteFile fs f).1 seen := by
  refine ⟨fun g hg => h.1 g ?_, fun g hg => h.2 g ?_⟩
  · exact hg.imp (presentIn_deleteFile fs f g _) (presentIn_deleteFile fs f g _)
  · exact ⟨presentIn_deleteFile fs f g _ hg.1, presentIn_deleteFile fs f g _ hg.2⟩

theorem tracked_upload (fs : FS) (seen : List (Nat × String)) (now : Nat)
    (file : Upload) (h : Tracked fs seen) (hnew : (now, file.originalname) ∉ seen) :
    Tracked (postUpload fs now (some file)).1 ((now, file.originalname) :: seen) := by
  have hu : presentIn fs "uploads" (filename now file.toIncomingFile) = false := by
    cases hx : presentIn fs "uploads" (filename now file.toIncomingFile) with
    | false => rfl
    | true =>
      obtain ⟨k, hk, e⟩ := h.1 _ (Or.inl hx)
      obtain ⟨e1, e2⟩ := repr_sep_inj _ _ _ _ e
      exact absurd (by rw [e1, e2]; exact hk) hnew
  have hi : presentIn fs "public/images" (filename now file.toIncomingFile) = false := by
    cases hx : presentIn fs "public/images" (filename now file.toIncomingFile) with
    | false => rfl
    | true =>
      obtain ⟨k, hk, e⟩ := h.1 _ (Or.inr hx)
      obtain ⟨e1, e2⟩ := repr_sep_inj _ _ _ _ e
      exact absurd (by rw [e1, e2]; exact hk) hnew
  have key : ∀ g, g ≠ filename now file.toIncomingFile →
      presentIn (postUpload fs now (some file)).1 "uploads" g = presentIn fs "uploads" g ∧
      presentIn (postUpload fs now (some file)).1 "public/images" g
        = presentIn fs "public/images" g := by
    intro g hg
    have hw := fun d : Dir => Dir.lookup_write_ne d
      ⟨filename now file.toIncomingFile, isPlain_filename now file⟩ file.content hg
    cases hm : startsWith file.mimetype "image/"
    · rw [postUpload_other fs now file hm]
      simp [presentIn_uploads, presentIn_images, hw]
    · rw [postUpload_image fs now file hm]
      simp [presentIn_uploads, presentIn_images, hw]
  have self : ¬ (presentIn (postUpload fs now (some file)).1 "uploads"
        (filename now file.toIncomingFile) = true ∧
      presentIn (postUpload fs now (some file)).1 "public/images"
        (filename now file.toIncomingFile) = true) := by
    rw [presentIn_images] at hi
    rw [presentIn_uploads] at hu
    cases hm : startsWith file.mimetype "image/"
    · rw [postUpload_other fs now file hm]
      simp [presentIn_images, hi]
    · rw [postUpload_image fs now file hm]
      simp [presentIn_uploads, hu]
  refine ⟨fun g hg => ?_, fun g hg => ?_⟩
  · by_cases hgf : g = filename now file.toIncomingFile
    · exact ⟨(now, file.originalname), List.mem_cons_self _ _, hgf⟩
    · rw [(key g hgf).1, (key g hgf).2] at hg
      obtain ⟨k, hk, e⟩ := h.1 g hg
      exact ⟨k, List.mem_cons_of_mem _ hk, e⟩
  · by_cases hgf : g = filename now file.toIncomingFile
    · subst hgf
      exact self hg
    · rw [(key g hgf).1, (key g hgf).2] at hg
      exact h.2 g hg

theorem tracked_run (ops : List Op) : ∀ (fs : FS) (seen : List (Nat × String)),
    Tracked fs seen → (uploadKeys ops).Nodup → (∀ k ∈ uploadKeys ops, k ∉ seen) →
    ∃ seen', Tracked (run fs ops) seen' := by
  induction ops with
  | nil => intro fs seen h _ _; exact ⟨seen, h⟩
  | cons op rest ih =>
    intro fs seen h hnd hfresh
    cases op with
    | delete f =>
      exact ih (deleteFile fs f).1 seen (tracked_delete fs seen f h) hnd hfresh
    | upload now file =>
      simp only [uploadKeys, List.nodup_cons] at hnd
      have hnew : (now, file.originalname) ∉ seen :=
        hfresh _ (by simp [uploadKeys])
      refine ih (postUpload fs now (some file)).1 _
        (tracked_upload fs seen now file h hnew) hnd.2 ?_
      intro k hk
      simp only [List.mem_cons, not_or]
      refine ⟨fun e => hnd.1 (e ▸ hk), hfresh k ?_⟩
      simp [uploadKeys, hk]

theorem tracked_empty (dirname : List String) (other : List (List String × Node)) :
    Tracked (FS.empty dirname other) [] := by
  constructor
  · intro f hf
    simp [presentIn, fileIn, FS.dir, FS.empty] at hf
  · intro f hf
    simp [presentIn, fileIn, FS.dir, FS.empty] at hf

/-- C9, as stated, fails: two uploads that arrive in the same millisecond with
the same original name, one declared `image/png` and one `text/plain`, leave
the name `1-a` in both directories. -/
theorem C9_counterexample_both_directories :
    presentIn (run (FS.empty ["srv", "app"] []) [.upload 1 ⟨⟨"image/png", "a", [1]⟩, rfl⟩,
        .upload 1 ⟨⟨"text/plain", "a", [2]⟩, rfl⟩]) "uploads" "1-a" = true ∧
    presentIn (run (FS.empty ["srv", "app"] []) [.upload 1 ⟨⟨"image/png", "a", [1]⟩, rfl⟩,
        .upload 1 ⟨⟨"text/plain", "a", [2]⟩, rfl⟩]) "public/images" "1-a" = true := by
  constructor <;> decide

/-- C9, amended: in every store reached from the empty store by a sequence of
uploads and deletions in which no two uploads share both the arrival time and
the original name, no file name is present in both directories. -/
theorem C9_single_directory (dirname : List String) (other : List (List String × Node))
    (ops : List Op) (h : (uploadKeys ops).Nodup) (f : String) :
    ¬ (presentIn (run (FS.empty dirname other) ops) "uploads" f = true ∧
      presentIn (run (FS.empty dirname other) ops) "public/images" f = true) := by
  obtain ⟨seen, hs⟩ :=
    tracked_run ops (FS.empty dirname other) [] (tracked_empty dirname other) h
      (fun _ _ => by simp)
  exact hs.2 f

/-- C9, amended, at a concrete sequence: an image upload, a text upload one
millisecond later with the same original name, and a deletion. -/
theorem C9_single_directory_witness :
    (uploadKeys [.upload 1 ⟨⟨"image/png", "a", [1]⟩, rfl⟩,
      .upload 2 ⟨⟨"text/plain", "a", [2]⟩, rfl⟩, .delete "1-a"]).Nodup ∧
    ¬ (presentIn (run (FS.empty ["srv", "app"] []) [.upload 1 ⟨⟨"image/png", "a", [1]⟩, rfl⟩,
          .upload 2 ⟨⟨"text/plain", "a", [2]⟩, rfl⟩, .delete "1-a"]) "uploads" "2-a" = true ∧
      presentIn (run (FS.empty ["srv", "app"] []) [.upload 1 ⟨⟨"image/png", "a", [1]⟩, rfl⟩,
          .upload 2 ⟨⟨"text/plain", "a", [2]⟩, rfl⟩, .delete "1-a"]) "public/images" "2-a"
        = true) :=
  ⟨by decide, C9_single_directory _ _ _ (by decide) "2-a"⟩

end FileService
